import Mathlib

/-!
Shallow embedding of the Move analyzer's name-chain completion engine
(`move-analyzer/src/completions/name_chain.rs`) together with the external
data it consumes (symbol index, alias snapshots, cursor descriptor), which
the spec describes but whose construction is out of scope.

Rust `panic!`-able computations (the `unwrap()` on the cursor's enclosing
module in `datatype_completion`, and slice indexing in
`completions_for_name_chain_entry`) are modelled by `Option`-valued
functions: `none` means the source code panics on that input.
-/

/-- Location of a source-code item: a half-open byte span.  Mirrors
`move_ir_types::location::Loc` restricted to the operations the engine uses
(`start`, `end`, `contains`). -/
structure Loc where
  startPos : Nat
  endPos : Nat
deriving DecidableEq

/-- Mirrors `Loc::contains`: `self.start() <= other.start() && other.end() <= self.end()`. -/
def Loc.contains (self other : Loc) : Bool :=
  decide (self.startPos ≤ other.startPos) && decide (other.endPos ≤ self.endPos)

/-- A spanned identifier (`Name = Spanned<Symbol>` in the source). -/
structure Name where
  loc : Loc
  value : String
deriving DecidableEq

/-- Mirrors `parser::ast::LeadingNameAccess_`: the form tag of a chain's
leading segment (plain name, numeric address, or `::`-qualified name). -/
inductive LeadingNameAccess_ where
  | Name (n : Name)
  | AnonymousAddress (addr : Nat)
  | GlobalAddress (n : Name)
deriving DecidableEq

/-- A spanned leading name access (`P::LeadingNameAccess`). -/
structure LeadingNameAccess where
  loc : Loc
  value : LeadingNameAccess_
deriving DecidableEq

/-- Mirrors `expansion::ast::Address`: a numeric address value optionally
carrying a human alias, or an as-yet-unassigned named address.  The
`name_conflict` field is dropped: the engine matches it with `_`. -/
inductive Address where
  | Numerical (name : Option String) (value : Nat)
  | NamedUnassigned (name : String)
deriving DecidableEq

/-- Modelled from the spec: the canonical resolved identity of an address
("equality is by canonical resolved identity").  A `Numerical` address is
identified by its numeric value (the alias is ignored); a `NamedUnassigned`
address by its name.  This is the identity that `Address`'s custom equality
in the expansion AST implements. -/
inductive AddrKey where
  | numeric (v : Nat)
  | named (s : String)
deriving DecidableEq

/-- Canonical identity of an address. -/
def Address.canonical : Address → AddrKey
  | .Numerical _ value => .numeric value
  | .NamedUnassigned name => .named name

/-- Address equality as the source's `==` on `expansion::ast::Address`:
by canonical resolved identity. -/
def addrEqb (a b : Address) : Bool :=
  decide (a.canonical = b.canonical)

/-- Mirrors `expansion::ast::ModuleIdent_`: address plus module name. -/
structure ModuleIdent_ where
  address : Address
  module : String
deriving DecidableEq

/-- Module-identity equality as the source's `==` on `ModuleIdent`
(spans are ignored, addresses compare by canonical identity). -/
def modIdentEqb (a b : ModuleIdent_) : Bool :=
  addrEqb a.address b.address && decide (a.module = b.module)

/-- Modelled from the spec: `expansion_mod_ident_to_map_key` (defined in
`symbols.rs`, outside the unit under study) renders a module identity to
the canonical key used for same-module comparisons.  The spec's data model
says module equality is by canonical resolved identity, so the key is the
canonical address identity paired with the module name. -/
def expansion_mod_ident_to_map_key (m : ModuleIdent_) : AddrKey × String :=
  (m.address.canonical, m.module)

/-- Modelled from the spec: visibility tags
{ModulePrivate, PackageVisible, Public} of the symbol index
(`expansion::ast::Visibility` lives outside the unit under study);
constructor names follow the source's match arms. -/
inductive Visibility where
  | Internal
  | Package
  | Public
deriving DecidableEq

/-- Modelled from the spec: the function entry of the symbol index
(`DefInfo::Function` in `symbols.rs`): a visibility tag plus signature
data; of the latter only macro-ness is retained, the rest feeds the
(also modelled) completion-item constructor opaquely. -/
structure FunctionInfo where
  visibility : Visibility
  macroFlag : Bool
deriving DecidableEq

/-- Field definition of a struct: location and field name. -/
structure FieldDef where
  loc : Loc
  name : String
deriving DecidableEq

/-- Mirrors `MemberDefInfo` as used by `struct_completion`: either a struct
with ordered field definitions and a positional flag, or anything else. -/
inductive MemberDefInfo where
  | Struct (field_defs : List FieldDef) (positional : Bool)
  | OtherMember
deriving DecidableEq

/-- Mirrors `MemberDef` restricted to the field the engine reads. -/
structure MemberDef where
  info : MemberDefInfo
deriving DecidableEq

/-- Modelled from the spec: one enum variant of the symbol index, with the
data `variant_completion` obtains from `VariantInfo` plus the
`DefInfo::Variant` entry (positional flag and ordered field names). -/
structure VariantInfo where
  name : Name
  positional : Bool
  field_names : List Name
deriving DecidableEq

/-- Modelled from the spec: per-module tables of the symbol index
(functions, structs, enums, constants), each keyed by member name. -/
structure ModuleDefs where
  ident : ModuleIdent_
  functions : List (String × FunctionInfo)
  structs : List (String × MemberDef)
  enums : List (String × List VariantInfo)
  constants : List String
deriving DecidableEq

/-- Mirrors `AliasAutocompleteInfo`: the per-chain-root alias snapshot
(visible package addresses, module aliases, member aliases, type
parameters). -/
structure AliasAutocompleteInfo where
  addresses : List (String × Nat)
  modules : List (String × ModuleIdent_)
  members : List (String × ModuleIdent_ × Name)
  type_params : List String
deriving DecidableEq

/-- Mirrors `AliasAutocompleteInfo::new`: the empty-but-valid snapshot. -/
def AliasAutocompleteInfo.new : AliasAutocompleteInfo :=
  ⟨[], [], [], []⟩

/-- Modelled from the spec: the read-only symbol index handed to the
engine — all module definition tables, plus the per-chain-root alias
snapshots keyed by the leading name's location. -/
structure Symbols where
  file_mods : List ModuleDefs
  path_autocomplete_info : List (Loc × AliasAutocompleteInfo)
deriving DecidableEq

/-- Mirrors `ChainCompletionKind`: what the whole chain may represent
(`Typ` stands for the source's `Type` variant, a reserved word here). -/
inductive ChainCompletionKind where
  | Typ
  | Function
  | All
deriving DecidableEq

/-- Mirrors `parser::ast::NameAccessChain_` restricted to the data the
engine reads: a single name, or a rooted path with further entries. -/
inductive NameAccessChain where
  | Single (name : Name)
  | Path (root : LeadingNameAccess) (entries : List Name)
deriving DecidableEq

/-- Mirrors `ChainInfo`: the chain found at the cursor, its completion
kind, and whether it sits inside a `use` declaration. -/
structure ChainInfo where
  chain : NameAccessChain
  kind : ChainCompletionKind
  inside_use : Bool
deriving DecidableEq

/-- Mirrors `parser::ast::ModuleUse` restricted to the data the engine
reads: a plain module alias, a member group, or a partial (unterminated)
group with an optional `::` location. -/
inductive PModuleUse where
  | Module
  | Members (members : List Name)
  | PartialMembers (colon_colon : Option Loc)
deriving DecidableEq

/-- Mirrors the parser's spanned module identifier inside a `use`
(address plus module name, each with source spans). -/
structure PModuleIdent where
  address : LeadingNameAccess
  module : Name
deriving DecidableEq

/-- Mirrors `parser::ast::Use`: single-module use, grouped multi-module
use, `use fun`, or a partial use with an optional `::` location. -/
inductive PUse where
  | ModuleUse (mod_ident : PModuleIdent) (mod_use : PModuleUse)
  | NestedModuleUses (leading_name : LeadingNameAccess) (uses : List (Name × PModuleUse))
  | UseFun
  | PartialUse (package : LeadingNameAccess) (colon_colon : Option Loc)
deriving DecidableEq

/-- Modelled from the spec: the cursor descriptor (`CursorContext` in
`symbols.rs`): cursor location, the enclosing module identity when there
is one, and the results of `find_access_chain()` / `find_use_decl()` —
the chain or use declaration recognized at the cursor, if any. -/
structure CursorContext where
  loc : Loc
  module : Option ModuleIdent_
  chain_info : Option ChainInfo
  use_decl : Option PUse
deriving DecidableEq

/-- Structural kind tags of completion candidates (the subset of
`lsp_types::CompletionItemKind` the engine uses). -/
inductive CompletionItemKind where
  | UNIT
  | MODULE
  | STRUCT
  | ENUM
  | ENUM_MEMBER
  | CONSTANT
  | FUNCTION
  | TYPE_PARAMETER
  | KEYWORD
deriving DecidableEq

/-- A completion candidate: label, kind tag, optional snippet insert text,
and whether the insert text is in snippet (placeholder) format. -/
structure CompletionItem where
  label : String
  kind : CompletionItemKind
  insert_text : Option String
  snippet_format : Bool
deriving DecidableEq

/-- Modelled from the spec: `completion_item` from `completions/utils.rs`
(outside the unit under study): a plain candidate with a label and kind. -/
def completion_item (label : String) (kind : CompletionItemKind) : CompletionItem :=
  { label := label, kind := kind, insert_text := none, snippet_format := false }

/-- Modelled from the spec: `call_completion_item` from
`completions/utils.rs` (outside the unit under study): a function-call
candidate labelled by the function name, with a call template carrying
placeholders unless the completion is inside a `use` declaration. -/
def call_completion_item (mod_ident : ModuleIdent_) (macroFlag : Bool)
    (fname : String) (inside_use : Bool) : CompletionItem :=
  let _ := mod_ident
  { label := fname
    kind := .FUNCTION
    insert_text :=
      if inside_use then none
      else some (fname ++ (if macroFlag then "!($1)" else "($1)"))
    snippet_format := !inside_use }

/-- Modelled from the spec: the static list of primitive-type candidates
(`PRIMITIVE_TYPE_COMPLETIONS` in `completions/utils.rs`). -/
def PRIMITIVE_TYPE_COMPLETIONS : List CompletionItem :=
  ["address", "bool", "signer", "u8", "u16", "u32", "u64", "u128", "u256", "vector"].map
    (fun t => completion_item t .KEYWORD)

/-- Modelled from the spec: `mod_defs` from `completions/utils.rs`
(outside the unit under study): looks a module's definition tables up in
the symbol index by module identity. -/
def mod_defs (symbols : Symbols) (mod_ident : ModuleIdent_) : Option ModuleDefs :=
  symbols.file_mods.find? (fun md => modIdentEqb md.ident mod_ident)

/-- Collects a list while dropping elements equal (under `eqb`) to an
earlier one; models `BTreeSet` collection (which claims depend on only up
to membership). -/
def dedupBy (eqb : α → α → Bool) (l : List α) : List α :=
  l.foldl (fun acc x => if acc.any (eqb x) then acc else acc ++ [x]) []

/-- Sequences a list of fallible candidate computations, concatenating the
results; `none` (a panic in any branch) aborts the whole computation, as a
Rust panic would. -/
def optFlatMap (f : α → Option (List β)) : List α → Option (List β)
  | [] => some []
  | x :: xs =>
    match f x with
    | none => none
    | some y =>
      match optFlatMap f xs with
      | none => none
      | some ys => some (y ++ ys)

/-- Mirrors `Vec::join(separator)` on strings. -/
def joinSep (sep : String) : List String → String
  | [] => ""
  | [s] => s
  | s :: rest => s ++ (sep ++ joinSep sep rest)

/-- Concatenation of a list of strings (used to state layout properties). -/
def concatAll : List String → String
  | [] => ""
  | s :: rest => s ++ concatAll rest

/-- Number of occurrences of a character in a string. -/
def countChar (c : Char) (s : String) : Nat :=
  s.data.count c

/-- One snippet placeholder, as `datatype_completion` formats it:
`${idx+1:name}` for a named field, `${idx+1}` for a positional one. -/
def fieldPlaceholder (named_fields : Bool) (idx : Nat) (name : Name) : String :=
  if named_fields then
    "$\x7b" ++ Nat.repr (idx + 1) ++ ":" ++ name.value ++ "\x7d"
  else
    "$\x7b" ++ Nat.repr (idx + 1) ++ "\x7d"

/-- Mirrors `datatype_completion`: candidates for a struct or enum variant.
Always yields the bare-name candidate; a literal-construction snippet is
added only when the field list is non-empty and the datatype's defining
module equals the cursor's enclosing module.  The source unconditionally
`unwrap()`s the cursor's enclosing module, so a cursor without one makes
this panic (`none`), even before the field-list check. -/
def datatype_completion (cursor : CursorContext) (defining_mod_ident : ModuleIdent_)
    (field_container : String) (kind : CompletionItemKind)
    (field_names : List Name) (named_fields : Bool) : Option (List CompletionItem) :=
  let completions := [completion_item field_container kind]
  let defining_key := expansion_mod_ident_to_map_key defining_mod_ident
  match cursor.module with
  | none => none
  | some current_module =>
    let current_key := expansion_mod_ident_to_map_key current_module
    if field_names.isEmpty || decide (defining_key ≠ current_key) then
      some completions
    else
      let separator :=
        if decide (field_names.length > 2) && named_fields then ",\n\t" else ", "
      let fields_list :=
        joinSep separator
          (field_names.enum.map (fun p => fieldPlaceholder named_fields p.1 p.2))
      let li : String × String :=
        if !named_fields then
          (field_container ++ "(..)", field_container ++ "(" ++ fields_list ++ ")")
        else if decide (field_names.length > 2) then
          (field_container ++ "\x7b..\x7d",
           field_container ++ " \x7b\n\t" ++ fields_list ++ ",\n\x7d")
        else
          (field_container ++ "\x7b..\x7d",
           field_container ++ " \x7b " ++ fields_list ++ " \x7d")
      some (completions ++
        [{ label := li.1, kind := kind, insert_text := some li.2, snippet_format := true }])

/-- Mirrors `struct_completion`: snippet-bearing completion for a struct
member, or just the bare name when the member record is not a struct. -/
def struct_completion (cursor : CursorContext) (defining_mod_ident : ModuleIdent_)
    (name : String) (member_def : MemberDef) : Option (List CompletionItem) :=
  match member_def.info with
  | .Struct field_defs positional =>
    datatype_completion cursor defining_mod_ident name .STRUCT
      (field_defs.map (fun d => ⟨d.loc, d.name⟩)) (!positional)
  | .OtherMember => some [completion_item name .STRUCT]

/-- Whether the cursor's enclosing module equals the given module
(`same_module` in `module_member_completions`). -/
def sameModuleAsCursor (cursor : CursorContext) (mi : ModuleIdent_) : Bool :=
  match cursor.module with
  | some c => modIdentEqb c mi
  | none => false

/-- Whether the cursor's enclosing module shares the given module's
address (`same_package` in `module_member_completions`). -/
def samePackageAsCursor (cursor : CursorContext) (mi : ModuleIdent_) : Bool :=
  match cursor.module with
  | some c => addrEqb c.address mi.address
  | none => false

/-- Mirrors `module_member_completions`: all members of a resolved module,
filtered by completion purpose and by visibility relative to the cursor's
enclosing module: functions by their visibility tag, constants by
same-module, structs and enums unconditionally (snippets gated inside
`struct_completion`). -/
def module_member_completions (symbols : Symbols) (cursor : CursorContext)
    (prefix_mod_ident : ModuleIdent_) (chain_kind : ChainCompletionKind)
    (inside_use : Bool) : Option (List CompletionItem) :=
  match mod_defs symbols prefix_mod_ident with
  | none => some []
  | some mdefs =>
    let same_module := sameModuleAsCursor cursor prefix_mod_ident
    let same_package := samePackageAsCursor cursor prefix_mod_ident
    let fun_completions : List CompletionItem :=
      if chain_kind = .Function ∨ chain_kind = .All then
        (mdefs.functions.filter (fun p =>
            match p.2.visibility with
            | .Internal => same_module
            | .Package => same_package
            | .Public => true)).map
          (fun p => call_completion_item prefix_mod_ident p.2.macroFlag p.1 inside_use)
      else []
    match (if chain_kind = .Typ ∨ chain_kind = .All then
             (optFlatMap (fun p => struct_completion cursor mdefs.ident p.1 p.2)
               mdefs.structs).map
               (fun scs => scs ++ mdefs.enums.map (fun p => completion_item p.1 .ENUM))
           else some []) with
    | none => none
    | some type_completions =>
      let const_completions : List CompletionItem :=
        if chain_kind = .All ∧ same_module = true then
          mdefs.constants.map (fun c => completion_item c .CONSTANT)
        else []
      some (fun_completions ++ type_completions ++ const_completions)

/-- Mirrors `single_name_member_completion`: a candidate for a member
alias usable as a single-length chain — checked against the target
module's functions, structs, enums and constants in turn. -/
def single_name_member_completion (symbols : Symbols) (cursor : CursorContext)
    (mod_ident : ModuleIdent_) (member_alias : String) (member_name : String)
    (chain_kind : ChainCompletionKind) : Option (List CompletionItem) :=
  match mod_defs symbols mod_ident with
  | none => some []
  | some mdefs =>
    match mdefs.functions.find? (fun p => decide (p.1 = member_name)) with
    | some fentry =>
      if chain_kind = .Function ∨ chain_kind = .All then
        some [call_completion_item mod_ident fentry.2.macroFlag member_alias false]
      else some []
    | none =>
    match mdefs.structs.find? (fun p => decide (p.1 = member_name)) with
    | some sentry =>
      if chain_kind = .Typ ∨ chain_kind = .All then
        struct_completion cursor mdefs.ident member_alias sentry.2
      else some []
    | none =>
    match mdefs.enums.find? (fun p => decide (p.1 = member_name)) with
    | some _ =>
      if chain_kind = .Typ ∨ chain_kind = .All then
        some [completion_item member_alias .ENUM]
      else some []
    | none =>
      if mdefs.constants.any (fun c => decide (c = member_name)) then
        if chain_kind = .All then
          some [completion_item member_alias .CONSTANT]
        else some []
      else some []

/-- Mirrors `all_single_name_member_completions`: the previous function
over every member alias in scope. -/
def all_single_name_member_completions (symbols : Symbols) (cursor : CursorContext)
    (members_info : List (String × ModuleIdent_ × Name))
    (chain_kind : ChainCompletionKind) : Option (List CompletionItem) :=
  optFlatMap
    (fun m =>
      single_name_member_completion symbols cursor m.2.1 m.1 m.2.2.value chain_kind)
    members_info

/-- Mirrors `is_pkg_mod_ident`: whether a module belongs to the package
identified by the leading name. -/
def is_pkg_mod_ident (mod_ident : ModuleIdent_) (leading_name : LeadingNameAccess) : Bool :=
  match mod_ident.address with
  | .NamedUnassigned name =>
    match leading_name.value with
    | .Name n => decide (name = n.value)
    | .GlobalAddress n => decide (name = n.value)
    | .AnonymousAddress _ => false
  | .Numerical name value =>
    match leading_name.value with
    | .AnonymousAddress addr => decide (addr = value)
    | .Name addr_name => decide (some addr_name.value = name)
    | .GlobalAddress addr_name => decide (some addr_name.value = name)

/-- Mirrors `pkg_mod_identifiers`: module identities of a package, from
both the alias snapshot and the whole index, collected as a set. -/
def pkg_mod_identifiers (symbols : Symbols) (info : AliasAutocompleteInfo)
    (leading_name : LeadingNameAccess) : List ModuleIdent_ :=
  dedupBy modIdentEqb
    (((info.modules.map Prod.snd).filter (fun mi => is_pkg_mod_ident mi leading_name)) ++
     ((symbols.file_mods.map (fun m => m.ident)).filter
        (fun mi => is_pkg_mod_ident mi leading_name)))

/-- Mirrors `variant_completion`: candidates for one enum variant,
via `datatype_completion` on the variant's field data. -/
def variant_completion (cursor : CursorContext) (defining_mod_ident : ModuleIdent_)
    (vinfo : VariantInfo) : Option (List CompletionItem) :=
  datatype_completion cursor defining_mod_ident vinfo.name.value .ENUM_MEMBER
    vinfo.field_names (!vinfo.positional)

/-- Mirrors `all_variant_completions`: candidates for every variant of a
given enum; failed lookups yield no candidates. -/
def all_variant_completions (symbols : Symbols) (cursor : CursorContext)
    (mod_ident : ModuleIdent_) (datatype_name : String) : Option (List CompletionItem) :=
  match mod_defs symbols mod_ident with
  | none => some []
  | some mdefs =>
    match mdefs.enums.find? (fun p => decide (p.1 = datatype_name)) with
    | none => some []
    | some eentry =>
      optFlatMap (fun v => variant_completion cursor mdefs.ident v) eentry.2

/-- Mirrors `ChainComponentKind`: what a chain component represents. -/
inductive ChainComponentKind where
  | Package (leading_name : LeadingNameAccess)
  | Module (mod_ident : ModuleIdent_)
  | Member (mod_ident : ModuleIdent_) (member_name : String)
deriving DecidableEq

/-- Mirrors `ChainComponentInfo`: a component's location and kind. -/
structure ChainComponentInfo where
  loc : Loc
  kind : ChainComponentKind
deriving DecidableEq

/-- Mirrors `name_chain_entry_completions`: candidates emitted after a
component of kind `prev_kind` — modules of a package, members of a module,
variants of a member. -/
def name_chain_entry_completions (symbols : Symbols) (cursor : CursorContext)
    (info : AliasAutocompleteInfo) (prev_kind : ChainComponentKind)
    (chain_kind : ChainCompletionKind) (inside_use : Bool) : Option (List CompletionItem) :=
  match prev_kind with
  | .Package leading_name =>
    some ((pkg_mod_identifiers symbols info leading_name).map
      (fun mi => completion_item mi.module .MODULE))
  | .Module mod_ident =>
    module_member_completions symbols cursor mod_ident chain_kind inside_use
  | .Member mod_ident member_name =>
    all_variant_completions symbols cursor mod_ident member_name

/-- Mirrors `next_name_chain_component_kind`: the kind of the next chain
component given the previous one — Package to Module (by lookup), Module
to Member, Member to nothing. -/
def next_name_chain_component_kind (symbols : Symbols) (info : AliasAutocompleteInfo)
    (prev_kind : ChainComponentKind) (component_name : Name) : Option ChainComponentKind :=
  match prev_kind with
  | .Package leading_name =>
    ((pkg_mod_identifiers symbols info leading_name).find?
        (fun mi => decide (mi.module = component_name.value))).map
      ChainComponentKind.Module
  | .Module mod_ident => some (.Member mod_ident component_name.value)
  | .Member _ _ => none

/-- Mirrors `completions_for_name_chain_entry`: the recursive chain walk.
The source recursion advances `path_index` by one per call and stops at
the path's end, so its depth is bounded by the path length plus one; the
embedding makes the recursion structural on an explicit `fuel` bound
(`none` at fuel zero), and the bound's adequacy is proved separately.
Out-of-range indexing (only possible when called with an index past the
path length) is a source panic, hence `none`. -/
def completions_for_name_chain_entry (fuel : Nat) (symbols : Symbols)
    (cursor : CursorContext) (info : AliasAutocompleteInfo)
    (prev_info : ChainComponentInfo) (chain_kind : ChainCompletionKind)
    (path_entries : List Name) (path_index : Nat)
    (colon_colon_triggered : Bool) (inside_use : Bool) : Option (List CompletionItem) :=
  match fuel with
  | 0 => none
  | fuel + 1 =>
    if path_index = path_entries.length then
      if colon_colon_triggered && decide (prev_info.loc.endPos < cursor.loc.startPos) then
        name_chain_entry_completions symbols cursor info prev_info.kind chain_kind inside_use
      else some []
    else
      match path_entries[path_index]? with
      | none => none
      | some entry =>
        if (colon_colon_triggered && decide (prev_info.loc.endPos < cursor.loc.startPos)
              && decide (cursor.loc.endPos ≤ entry.loc.startPos))
            || entry.loc.contains cursor.loc then
          name_chain_entry_completions symbols cursor info prev_info.kind chain_kind inside_use
        else
          match next_name_chain_component_kind symbols info prev_info.kind entry with
          | some next_kind =>
            completions_for_name_chain_entry fuel symbols cursor info
              ⟨entry.loc, next_kind⟩ chain_kind path_entries (path_index + 1)
              colon_colon_triggered inside_use
          | none => some []

/-- Mirrors `is_package_address`: the numeric address names a package. -/
def is_package_address (symbols : Symbols) (info : AliasAutocompleteInfo)
    (pkg_addr : Nat) : Bool :=
  info.addresses.any (fun p => decide (p.2 = pkg_addr)) ||
  symbols.file_mods.any (fun mdef =>
    match mdef.ident.address with
    | .Numerical _ value => decide (value = pkg_addr)
    | .NamedUnassigned _ => false)

/-- Mirrors `is_package_name`: the name names a package (by alias or by a
module's address alias / unassigned name in the index). -/
def is_package_name (symbols : Symbols) (info : AliasAutocompleteInfo)
    (pkg_name : Name) : Bool :=
  info.addresses.any (fun p => decide (p.1 = pkg_name.value)) ||
  symbols.file_mods.any (fun mdef =>
    match mdef.ident.address with
    | .NamedUnassigned name => decide (name = pkg_name.value)
    | .Numerical (some name) _ => decide (name = pkg_name.value)
    | .Numerical none _ => false)

/-- Mirrors `all_packages`: every package name or address rendering that
could complete the first chain position. -/
def all_packages (symbols : Symbols) (info : AliasAutocompleteInfo) : List String :=
  dedupBy (fun a b => decide (a = b))
    ((info.addresses.map (fun p => [p.1, Nat.repr p.2])).flatten ++
     (symbols.file_mods.map (fun mdef =>
        match mdef.ident.address with
        | .Numerical (some n) value => [n, Nat.repr value]
        | .Numerical none value => [Nat.repr value]
        | .NamedUnassigned n => [n])).flatten)

/-- Mirrors `first_name_chain_component_kind`: classify the leading
segment.  A plain name tries package, then module alias, then member
alias; an anonymous or global address can only be a package. -/
def first_name_chain_component_kind (symbols : Symbols) (info : AliasAutocompleteInfo)
    (leading_name : LeadingNameAccess) : Option ChainComponentKind :=
  match leading_name.value with
  | .Name n =>
    if is_package_name symbols info n then
      some (.Package leading_name)
    else
      match info.modules.find? (fun p => decide (p.1 = n.value)) with
      | some mentry => some (.Module mentry.2)
      | none =>
        match info.members.find? (fun m => decide (m.1 = n.value)) with
        | some aentry => some (.Member aentry.2.1 aentry.2.2.value)
        | none => none
  | .AnonymousAddress addr =>
    if is_package_address symbols info addr then some (.Package leading_name) else none
  | .GlobalAddress n =>
    if is_package_name symbols info n then some (.Package leading_name) else none

/-- Mirrors the member loop of `module_use_completions`: the first group
member whose span holds the cursor triggers member enumeration. -/
def members_loop (symbols : Symbols) (cursor : CursorContext)
    (mod_ident : ModuleIdent_) : List Name → Option (List CompletionItem)
  | [] => some []
  | m :: rest =>
    if m.loc.contains cursor.loc then
      module_member_completions symbols cursor mod_ident .All true
    else
      members_loop symbols cursor mod_ident rest

/-- Mirrors `module_use_completions`: candidates for one module's part of
a `use` declaration, dispatching on cursor placement within the member
group (or partial group). -/
def module_use_completions (symbols : Symbols) (cursor : CursorContext)
    (info : AliasAutocompleteInfo) (mod_use : PModuleUse)
    (package : LeadingNameAccess) (mod_name : Name) : Option (List CompletionItem) :=
  match (pkg_mod_identifiers symbols info package).find?
      (fun mi => decide (mi.module = mod_name.value)) with
  | none => some []
  | some mod_ident =>
    match mod_use with
    | .Module => some []
    | .Members members =>
      match members.head? with
      | some first_name =>
        if decide (mod_name.loc.endPos < cursor.loc.startPos)
            && decide (cursor.loc.endPos ≤ first_name.loc.startPos) then
          module_member_completions symbols cursor mod_ident .All true
        else
          members_loop symbols cursor mod_ident members
      | none => members_loop symbols cursor mod_ident members
    | .PartialMembers colon_colon =>
      match colon_colon with
      | some cc_loc =>
        if decide (cc_loc.startPos ≤ cursor.loc.startPos) then
          module_member_completions symbols cursor mod_ident .All true
        else some []
      | none => some []

/-- Mirrors the uses loop of `use_decl_completions` for grouped imports:
a module name holding the cursor re-offers the module set and stops the
loop; otherwise each module's member completions accumulate. -/
def nested_uses_loop (symbols : Symbols) (cursor : CursorContext)
    (info : AliasAutocompleteInfo) (leading_name : LeadingNameAccess) :
    List (Name × PModuleUse) → Option (List CompletionItem)
  | [] => some []
  | (mod_name, mod_use) :: rest =>
    if mod_name.loc.contains cursor.loc then
      some ((pkg_mod_identifiers symbols info leading_name).map
        (fun mi => completion_item mi.module .MODULE))
    else
      match module_use_completions symbols cursor info mod_use leading_name mod_name with
      | none => none
      | some cs =>
        match nested_uses_loop symbols cursor info leading_name rest with
        | none => none
        | some rest_cs => some (cs ++ rest_cs)

/-- Mirrors the first-position branch of `name_chain_completions` (cursor
on the leading segment): all packages always fit; when the leading name is
a plain name, modules, single-name members and — in type position —
primitive types and type parameters are offered as well. -/
def first_position_completions (symbols : Symbols) (cursor : CursorContext)
    (info : AliasAutocompleteInfo) (leading_name : LeadingNameAccess)
    (chain_kind : ChainCompletionKind) : Option (List CompletionItem) :=
  let pkg_items := (all_packages symbols info).map (fun n => completion_item n .UNIT)
  match leading_name.value with
  | .Name _ =>
    let mod_items := info.modules.map (fun p => completion_item p.1 .MODULE)
    let type_items :=
      if chain_kind = .Typ then
        PRIMITIVE_TYPE_COMPLETIONS ++
          info.type_params.map (fun t => completion_item t .TYPE_PARAMETER)
      else []
    (all_single_name_member_completions symbols cursor info.members chain_kind).map
      (fun member_items => pkg_items ++ mod_items ++ member_items ++ type_items)
  | _ => some pkg_items

/-- Mirrors the compiler-info lookup in `name_chain_completions`: the
alias snapshot for a chain root location, or the empty-but-valid snapshot
when the compiler generated none. -/
def lookup_autocomplete_info (symbols : Symbols) (loc : Loc) : AliasAutocompleteInfo :=
  ((symbols.path_autocomplete_info.find? (fun p => decide (p.1 = loc))).map Prod.snd).getD
    AliasAutocompleteInfo.new

/-- Mirrors the per-chain body of `name_chain_completions`, after the
leading name and path entries have been split off the recognized chain:
first-position completions when the cursor sits on the leading segment,
otherwise classification of the leading segment followed by the recursive
walk.  The fuel given to the walk is its depth bound: path length plus
one. -/
def name_chain_completions_entry (symbols : Symbols) (cursor : CursorContext)
    (info : AliasAutocompleteInfo) (leading_name : LeadingNameAccess)
    (path_entries : List Name) (chain_kind : ChainCompletionKind)
    (inside_use : Bool) (colon_colon_triggered : Bool) :
    Option (List CompletionItem × Bool) :=
  if leading_name.loc.contains cursor.loc then
    (first_position_completions symbols cursor info leading_name chain_kind).map
      (fun cs => (cs, true))
  else
    match first_name_chain_component_kind symbols info leading_name with
    | some next_kind =>
      (completions_for_name_chain_entry (path_entries.length + 1) symbols cursor
          info ⟨leading_name.loc, next_kind⟩ chain_kind path_entries 0
          colon_colon_triggered inside_use).map (fun cs => (cs, true))
    | none => some ([], true)

/-- Mirrors `name_chain_completions`: the chain entry point.  Returns the
candidate list and the "suppress generic completions" flag; `none` models
a panic.  The flag is false only when no chain is recognized at the
cursor. -/
def name_chain_completions (symbols : Symbols) (cursor : CursorContext)
    (colon_colon_triggered : Bool) : Option (List CompletionItem × Bool) :=
  match cursor.chain_info with
  | none => some ([], false)
  | some cinfo =>
    match cinfo.chain with
    | .Single name =>
      name_chain_completions_entry symbols cursor
        (lookup_autocomplete_info symbols name.loc) ⟨name.loc, .Name name⟩ []
        cinfo.kind cinfo.inside_use colon_colon_triggered
    | .Path root entries =>
      name_chain_completions_entry symbols cursor
        (lookup_autocomplete_info symbols root.loc) root entries
        cinfo.kind cinfo.inside_use colon_colon_triggered

/-- Mirrors `use_decl_completions`: the `use`-declaration entry point.
Returns the candidate list and the "suppress generic completions" flag;
`none` models a panic.  The flag is false only when no use declaration is
recognized at the cursor. -/
def use_decl_completions (symbols : Symbols) (cursor : CursorContext) :
    Option (List CompletionItem × Bool) :=
  match cursor.use_decl with
  | none => some ([], false)
  | some u =>
    let info := AliasAutocompleteInfo.new
    match u with
    | .ModuleUse mod_ident mod_use =>
      if mod_ident.address.loc.contains cursor.loc then
        some ((all_packages symbols info).map (fun n => completion_item n .UNIT), true)
      else if decide (mod_ident.address.loc.endPos < cursor.loc.startPos)
          && decide (cursor.loc.endPos ≤ mod_ident.module.loc.endPos) then
        some ((pkg_mod_identifiers symbols info mod_ident.address).map
          (fun mi => completion_item mi.module .MODULE), true)
      else
        (module_use_completions symbols cursor info mod_use mod_ident.address
            mod_ident.module).map (fun cs => (cs, true))
    | .NestedModuleUses leading_name uses =>
      if leading_name.loc.contains cursor.loc then
        some ((all_packages symbols info).map (fun n => completion_item n .UNIT), true)
      else
        match uses.head? with
        | some fu =>
          if decide (leading_name.loc.endPos < cursor.loc.startPos)
              && decide (cursor.loc.endPos ≤ fu.1.loc.startPos) then
            some ((pkg_mod_identifiers symbols info leading_name).map
              (fun mi => completion_item mi.module .MODULE), true)
          else
            (nested_uses_loop symbols cursor info leading_name uses).map
              (fun cs => (cs, true))
        | none =>
          (nested_uses_loop symbols cursor info leading_name uses).map
            (fun cs => (cs, true))
    | .UseFun => some ([], true)
    | .PartialUse package colon_colon =>
      let pkg_items :=
        if package.loc.contains cursor.loc then
          (all_packages symbols info).map (fun n => completion_item n .UNIT)
        else []
      let mod_items :=
        match colon_colon with
        | some cc_loc =>
          if decide (cc_loc.startPos ≤ cursor.loc.startPos) then
            (pkg_mod_identifiers symbols info package).map
              (fun mi => completion_item mi.module .MODULE)
          else []
        | none => []
      some (pkg_items ++ mod_items, true)

/-! Helper lemmas about strings, decimal renderings, and the joining of
snippet pieces. -/

theorem countChar_append (c : Char) (a b : String) :
    countChar c (a ++ b) = countChar c a + countChar c b := by
  simp [countChar, String.data_append, List.count_append]

theorem mem_data_append {c : Char} {a b : String} :
    c ∈ (a ++ b).data ↔ c ∈ a.data ∨ c ∈ b.data := by
  simp [String.data_append]

theorem digitChar_isDigit : ∀ n < 10, (Nat.digitChar n).isDigit = true := by decide

theorem toDigitsCore_isDigit :
    ∀ (fuel n : Nat) (ds : List Char), (∀ c ∈ ds, c.isDigit = true) →
      ∀ c ∈ Nat.toDigitsCore 10 fuel n ds, c.isDigit = true := by
  intro fuel
  induction fuel with
  | zero => intro n ds hds; simpa [Nat.toDigitsCore] using hds
  | succ fuel ih =>
    intro n ds hds c hc
    simp only [Nat.toDigitsCore] at hc
    split at hc
    · rcases List.mem_cons.mp hc with h | h
      · subst h; exact digitChar_isDigit _ (Nat.mod_lt _ (by norm_num))
      · exact hds _ h
    · refine ih _ _ ?_ _ hc
      intro d hd
      rcases List.mem_cons.mp hd with h | h
      · subst h; exact digitChar_isDigit _ (Nat.mod_lt _ (by norm_num))
      · exact hds _ h

theorem repr_isDigit (n : Nat) : ∀ c ∈ (Nat.repr n).data, c.isDigit = true := by
  intro c hc
  have : (Nat.repr n).data = Nat.toDigitsCore 10 (n + 1) n [] := rfl
  rw [this] at hc
  exact toDigitsCore_isDigit _ _ _ (by simp) _ hc

theorem dollar_not_mem_repr (n : Nat) : ('$' : Char) ∉ (Nat.repr n).data := by
  intro h
  have := repr_isDigit n _ h
  simp [Char.isDigit] at this

theorem newline_not_mem_repr (n : Nat) : ('\n' : Char) ∉ (Nat.repr n).data := by
  intro h
  have := repr_isDigit n _ h
  simp [Char.isDigit] at this

theorem countChar_eq_zero {c : Char} {s : String} (h : c ∉ s.data) :
    countChar c s = 0 := by
  simp [countChar, List.count_eq_zero]; exact h

theorem joinSep_countChar (c : Char) (sep : String) (hsep : c ∉ sep.data) :
    ∀ l : List String, (∀ s ∈ l, countChar c s = 1) →
      countChar c (joinSep sep l) = l.length := by
  intro l
  induction l with
  | nil => intro _; simp [joinSep, countChar]
  | cons s rest ih =>
    intro h
    cases rest with
    | nil => simpa [joinSep] using h s (by simp)
    | cons t ts =>
      have hrest : countChar c (joinSep sep (t :: ts)) = (t :: ts).length :=
        ih (fun x hx => h x (List.mem_cons_of_mem _ hx))
      simp only [joinSep, countChar_append]
      rw [countChar_eq_zero hsep, hrest, h s (by simp)]
      simp [List.length_cons]; omega

theorem joinSep_not_mem (c : Char) (sep : String) (hsep : c ∉ sep.data) :
    ∀ l : List String, (∀ s ∈ l, c ∉ s.data) → c ∉ (joinSep sep l).data := by
  intro l
  induction l with
  | nil => intro _; simp [joinSep]
  | cons s rest ih =>
    intro h
    cases rest with
    | nil => simpa [joinSep] using h s (by simp)
    | cons t ts =>
      have hrest := ih (fun x hx => h x (List.mem_cons_of_mem _ hx))
      simp only [joinSep, mem_data_append]
      push_neg
      exact ⟨h s (by simp), hsep, hrest⟩

theorem joinSep_multiline :
    ∀ (ps : List String), ps ≠ [] →
      ("\n\t" ++ joinSep ",\n\t" ps ++ ",") =
        concatAll (ps.map (fun p => "\n\t" ++ p ++ ",")) := by
  intro ps
  induction ps with
  | nil => intro h; exact absurd rfl h
  | cons s rest ih =>
    intro _
    cases rest with
    | nil => simp [joinSep, concatAll]
    | cons t ts =>
      have hrest := ih (by simp)
      simp only [List.map_cons, concatAll] at hrest ⊢
      rw [← hrest]
      apply String.ext
      simp [joinSep, String.data_append]

theorem fieldPlaceholder_count_dollar (named : Bool) (idx : Nat) (name : Name)
    (h : ('$' : Char) ∉ name.value.data) :
    countChar '$' (fieldPlaceholder named idx name) = 1 := by
  cases named <;>
    simp [fieldPlaceholder, countChar_append, countChar_eq_zero (dollar_not_mem_repr (idx + 1)),
      countChar_eq_zero h] <;>
    rfl

theorem fieldPlaceholder_no_newline (named : Bool) (idx : Nat) (name : Name)
    (h : ('\n' : Char) ∉ name.value.data) :
    ('\n' : Char) ∉ (fieldPlaceholder named idx name).data := by
  intro hmem
  cases named <;>
    simp [fieldPlaceholder, mem_data_append, newline_not_mem_repr (idx + 1), h] at hmem

/-! Absence of panics when the cursor carries an enclosing module: every
engine function returns normally (`isSome`). -/

theorem datatype_completion_isSome {cursor : CursorContext} (m : ModuleIdent_)
    (hm : cursor.module = some m) (dmi : ModuleIdent_) (fc : String)
    (kind : CompletionItemKind) (fns : List Name) (nf : Bool) :
    (datatype_completion cursor dmi fc kind fns nf).isSome := by
  simp only [datatype_completion, hm]
  split <;> simp

theorem struct_completion_isSome {cursor : CursorContext} (m : ModuleIdent_)
    (hm : cursor.module = some m) (dmi : ModuleIdent_) (name : String)
    (md : MemberDef) : (struct_completion cursor dmi name md).isSome := by
  unfold struct_completion
  split
  · exact datatype_completion_isSome m hm _ _ _ _ _
  · simp

theorem optFlatMap_isSome {f : α → Option (List β)} :
    ∀ {l : List α}, (∀ x ∈ l, (f x).isSome) → (optFlatMap f l).isSome := by
  intro l
  induction l with
  | nil => intro _; simp [optFlatMap]
  | cons x xs ih =>
    intro h
    have hx := h x (by simp)
    have hxs := ih (fun y hy => h y (List.mem_cons_of_mem _ hy))
    unfold optFlatMap
    rcases Option.isSome_iff_exists.mp hx with ⟨y, hy⟩
    rcases Option.isSome_iff_exists.mp hxs with ⟨ys, hys⟩
    simp [hy, hys]

theorem module_member_completions_isSome {cursor : CursorContext} (m : ModuleIdent_)
    (hm : cursor.module = some m) (symbols : Symbols) (pmi : ModuleIdent_)
    (ck : ChainCompletionKind) (iu : Bool) :
    (module_member_completions symbols cursor pmi ck iu).isSome := by
  unfold module_member_completions
  split
  · simp
  · rename_i mdefs hmd
    have hfm : (optFlatMap (fun p => struct_completion cursor mdefs.ident p.1 p.2)
        mdefs.structs).isSome :=
      optFlatMap_isSome (fun _ _ => struct_completion_isSome m hm _ _ _)
    rcases Option.isSome_iff_exists.mp hfm with ⟨v, hv⟩
    by_cases hck : ck = ChainCompletionKind.Typ ∨ ck = ChainCompletionKind.All
    · simp [hck, hv]
    · simp [hck]

theorem single_name_member_completion_isSome {cursor : CursorContext} (m : ModuleIdent_)
    (hm : cursor.module = some m) (symbols : Symbols) (mi : ModuleIdent_)
    (ma mn : String) (ck : ChainCompletionKind) :
    (single_name_member_completion symbols cursor mi ma mn ck).isSome := by
  unfold single_name_member_completion
  split
  · simp
  · split
    · split <;> simp
    · split
      · split
        · exact struct_completion_isSome m hm _ _ _
        · simp
      · split
        · split <;> simp
        · split
          · split <;> simp
          · simp

theorem all_single_name_member_completions_isSome {cursor : CursorContext}
    (m : ModuleIdent_) (hm : cursor.module = some m) (symbols : Symbols)
    (mems : List (String × ModuleIdent_ × Name)) (ck : ChainCompletionKind) :
    (all_single_name_member_completions symbols cursor mems ck).isSome :=
  optFlatMap_isSome (fun _ _ => single_name_member_completion_isSome m hm _ _ _ _ _)

theorem all_variant_completions_isSome {cursor : CursorContext} (m : ModuleIdent_)
    (hm : cursor.module = some m) (symbols : Symbols) (mi : ModuleIdent_)
    (dn : String) : (all_variant_completions symbols cursor mi dn).isSome := by
  unfold all_variant_completions
  split
  · simp
  · split
    · simp
    · exact optFlatMap_isSome
        (fun v _ => datatype_completion_isSome m hm _ _ _ _ _)

theorem name_chain_entry_completions_isSome {cursor : CursorContext} (m : ModuleIdent_)
    (hm : cursor.module = some m) (symbols : Symbols) (info : AliasAutocompleteInfo)
    (pk : ChainComponentKind) (ck : ChainCompletionKind) (iu : Bool) :
    (name_chain_entry_completions symbols cursor info pk ck iu).isSome := by
  unfold name_chain_entry_completions
  match pk with
  | .Package ln => simp
  | .Module mi => exact module_member_completions_isSome m hm _ _ _ _
  | .Member mi mn => exact all_variant_completions_isSome m hm _ _ _

theorem completions_for_name_chain_entry_isSome {cursor : CursorContext}
    (m : ModuleIdent_) (hm : cursor.module = some m) (symbols : Symbols)
    (info : AliasAutocompleteInfo) (ck : ChainCompletionKind)
    (path_entries : List Name) (ccol iu : Bool) :
    ∀ (fuel path_index : Nat) (pinfo : ChainComponentInfo),
      path_index ≤ path_entries.length →
      path_entries.length - path_index < fuel →
      (completions_for_name_chain_entry fuel symbols cursor info pinfo ck path_entries
        path_index ccol iu).isSome := by
  intro fuel
  induction fuel with
  | zero => intro idx pinfo _ hf; omega
  | succ fuel ih =>
    intro idx pinfo hle hf
    unfold completions_for_name_chain_entry
    by_cases hidx : idx = path_entries.length
    · rw [if_pos hidx]
      split
      · exact name_chain_entry_completions_isSome m hm _ _ _ _ _
      · simp
    · have hlt : idx < path_entries.length := lt_of_le_of_ne hle hidx
      rw [if_neg hidx]
      split
      · rename_i heq
        rw [List.getElem?_eq_none_iff] at heq
        omega
      · rename_i entry heq
        split
        · exact name_chain_entry_completions_isSome m hm _ _ _ _ _
        · split
          · exact ih (idx + 1) _ (by omega) (by omega)
          · simp

theorem completions_for_name_chain_entry_top_isSome {cursor : CursorContext}
    (m : ModuleIdent_) (hm : cursor.module = some m) (symbols : Symbols)
    (info : AliasAutocompleteInfo) (ck : ChainCompletionKind)
    (path_entries : List Name) (ccol iu : Bool) (pinfo : ChainComponentInfo) :
    (completions_for_name_chain_entry (path_entries.length + 1) symbols cursor info
      pinfo ck path_entries 0 ccol iu).isSome :=
  completions_for_name_chain_entry_isSome m hm symbols info ck path_entries ccol iu
    _ 0 pinfo (by omega) (by omega)

theorem members_loop_isSome {cursor : CursorContext} (m : ModuleIdent_)
    (hm : cursor.module = some m) (symbols : Symbols) (mi : ModuleIdent_) :
    ∀ ms : List Name, (members_loop symbols cursor mi ms).isSome := by
  intro ms
  induction ms with
  | nil => simp [members_loop]
  | cons hd tl ih =>
    unfold members_loop
    split
    · exact module_member_completions_isSome m hm _ _ _ _
    · exact ih

theorem module_use_completions_isSome {cursor : CursorContext} (m : ModuleIdent_)
    (hm : cursor.module = some m) (symbols : Symbols) (info : AliasAutocompleteInfo)
    (mu : PModuleUse) (pkg : LeadingNameAccess) (mn : Name) :
    (module_use_completions symbols cursor info mu pkg mn).isSome := by
  unfold module_use_completions
  split
  · simp
  · split
    · simp
    · split
      · split
        · exact module_member_completions_isSome m hm _ _ _ _
        · exact members_loop_isSome m hm _ _ _
      · exact members_loop_isSome m hm _ _ _
    · split
      · split
        · exact module_member_completions_isSome m hm _ _ _ _
        · simp
      · simp

theorem nested_uses_loop_isSome {cursor : CursorContext} (m : ModuleIdent_)
    (hm : cursor.module = some m) (symbols : Symbols) (info : AliasAutocompleteInfo)
    (ln : LeadingNameAccess) :
    ∀ uses : List (Name × PModuleUse),
      (nested_uses_loop symbols cursor info ln uses).isSome := by
  intro uses
  induction uses with
  | nil => simp [nested_uses_loop]
  | cons hd tl ih =>
    obtain ⟨mn, mu⟩ := hd
    unfold nested_uses_loop
    split
    · simp
    · rcases Option.isSome_iff_exists.mp
        (module_use_completions_isSome m hm symbols info mu ln mn) with ⟨v, hv⟩
      rcases Option.isSome_iff_exists.mp ih with ⟨w, hw⟩
      rw [hv, hw]
      simp

theorem first_position_completions_isSome {cursor : CursorContext} (m : ModuleIdent_)
    (hm : cursor.module = some m) (symbols : Symbols) (info : AliasAutocompleteInfo)
    (ln : LeadingNameAccess) (ck : ChainCompletionKind) :
    (first_position_completions symbols cursor info ln ck).isSome := by
  unfold first_position_completions
  split
  · simp only [Option.isSome_map']
    exact all_single_name_member_completions_isSome m hm _ _ _
  · simp

theorem name_chain_completions_entry_isSome {cursor : CursorContext} (m : ModuleIdent_)
    (hm : cursor.module = some m) (symbols : Symbols) (info : AliasAutocompleteInfo)
    (ln : LeadingNameAccess) (pe : List Name) (ck : ChainCompletionKind)
    (iu ccol : Bool) :
    (name_chain_completions_entry symbols cursor info ln pe ck iu ccol).isSome := by
  unfold name_chain_completions_entry
  split
  · simp only [Option.isSome_map']
    exact first_position_completions_isSome m hm _ _ _ _
  · split
    · simp only [Option.isSome_map']
      exact completions_for_name_chain_entry_top_isSome m hm _ _ _ _ _ _ _
    · simp

theorem name_chain_completions_isSome {cursor : CursorContext} (m : ModuleIdent_)
    (hm : cursor.module = some m) (symbols : Symbols) (ccol : Bool) :
    (name_chain_completions symbols cursor ccol).isSome := by
  unfold name_chain_completions
  split
  · simp
  · split <;> exact name_chain_completions_entry_isSome m hm _ _ _ _ _ _ _

theorem use_decl_completions_isSome {cursor : CursorContext} (m : ModuleIdent_)
    (hm : cursor.module = some m) (symbols : Symbols) :
    (use_decl_completions symbols cursor).isSome := by
  unfold use_decl_completions
  split
  · simp
  · split
    · split
      · simp
      · split
        · simp
        · simp only [Option.isSome_map']
          exact module_use_completions_isSome m hm _ _ _ _ _
    · split
      · simp
      · split
        · split
          · simp
          · simp only [Option.isSome_map']
            exact nested_uses_loop_isSome m hm _ _ _ _
        · simp only [Option.isSome_map']
          exact nested_uses_loop_isSome m hm _ _ _ _
    · simp
    · simp

/-! Flag behaviour helpers. -/

theorem name_chain_completions_entry_flag (symbols : Symbols) (cursor : CursorContext)
    (info : AliasAutocompleteInfo) (ln : LeadingNameAccess) (pe : List Name)
    (ck : ChainCompletionKind) (iu ccol : Bool) (res : List CompletionItem × Bool)
    (h : name_chain_completions_entry symbols cursor info ln pe ck iu ccol = some res) :
    res.2 = true := by
  unfold name_chain_completions_entry at h
  split at h
  · rcases Option.map_eq_some'.mp h with ⟨cs, hcs, hres⟩
    subst hres; rfl
  · split at h
    · rcases Option.map_eq_some'.mp h with ⟨cs, hcs, hres⟩
      subst hres; rfl
    · injection h with h1; subst h1; rfl

theorem name_chain_flag_eq (symbols : Symbols) (cursor : CursorContext) (ccol : Bool)
    (res : List CompletionItem × Bool)
    (h : name_chain_completions symbols cursor ccol = some res) :
    res.2 = cursor.chain_info.isSome := by
  unfold name_chain_completions at h
  split at h
  · rename_i hud
    injection h with h1
    subst h1
    rw [hud]
    rfl
  · rename_i cinfo hud
    have hflag : res.2 = true := by
      split at h <;> exact name_chain_completions_entry_flag _ _ _ _ _ _ _ _ _ h
    rw [hflag, hud]
    rfl

theorem use_decl_flag_eq (symbols : Symbols) (cursor : CursorContext)
    (res : List CompletionItem × Bool)
    (h : use_decl_completions symbols cursor = some res) :
    res.2 = cursor.use_decl.isSome := by
  unfold use_decl_completions at h
  repeat' split at h
  all_goals try (injection h with h1; subst h1)
  all_goals try (rcases Option.map_eq_some'.mp h with ⟨cs, hcs, hres⟩; subst hres)
  all_goals simp_all

/-- C1: whenever a name access chain (respectively a use declaration) is
recognized at the cursor, any normal return of `name_chain_completions`
(respectively `use_decl_completions`) carries the "suppress generic
completions" flag `true` — even when the candidate list is empty — and
when none is recognized the result is exactly `([], false)`. -/
theorem suppress_flag_iff_context_recognized (symbols : Symbols)
    (cursor : CursorContext) (ccol : Bool) :
    (∀ res, name_chain_completions symbols cursor ccol = some res →
      res.2 = cursor.chain_info.isSome) ∧
    (cursor.chain_info = none →
      name_chain_completions symbols cursor ccol = some ([], false)) ∧
    (∀ res, use_decl_completions symbols cursor = some res →
      res.2 = cursor.use_decl.isSome) ∧
    (cursor.use_decl = none →
      use_decl_completions symbols cursor = some ([], false)) := by
  refine ⟨fun res h => name_chain_flag_eq symbols cursor ccol res h, ?_,
    fun res h => use_decl_flag_eq symbols cursor res h, ?_⟩
  · intro hnone
    unfold name_chain_completions
    rw [hnone]
  · intro hnone
    unfold use_decl_completions
    rw [hnone]

/-- Concrete empty symbol index used by witnesses. -/
def wSymbols : Symbols := ⟨[], []⟩

/-- Concrete cursor sitting on the leading segment of a recognized
single-segment chain, with no alias information: the engine recognizes a
chain and returns an empty candidate list with the flag set. -/
def wChainCursor : CursorContext :=
  ⟨⟨0, 1⟩, none, some ⟨.Single ⟨⟨0, 1⟩, "x"⟩, .All, false⟩, none⟩

/-- Witness for C1: a recognized chain with an empty candidate list still
returns the suppress flag as true. -/
theorem suppress_flag_iff_context_recognized_witness :
    (([], true) : List CompletionItem × Bool).2 = wChainCursor.chain_info.isSome :=
  (suppress_flag_iff_context_recognized wSymbols wChainCursor false).1 ([], true) rfl

/-- Module identity of the panic example: address 1 aliased `P`, module `m`. -/
def cxMod : ModuleIdent_ := ⟨.Numerical (some "P") 1, "m"⟩

/-- Definition tables of `P::m`: one struct `S` with one named field. -/
def cxModDefs : ModuleDefs :=
  ⟨cxMod, [], [("S", ⟨.Struct [⟨⟨100, 101⟩, "x"⟩] false⟩)], [], []⟩

/-- Alias snapshot making `S` a member alias of `P::m`. -/
def cxInfo : AliasAutocompleteInfo := ⟨[], [], [("S", cxMod, ⟨⟨200, 201⟩, "S"⟩)], []⟩

/-- Symbol index with `P::m` and the alias snapshot at the chain root. -/
def cxSymbols : Symbols := ⟨[cxModDefs], [(⟨10, 11⟩, cxInfo)]⟩

/-- Cursor on the leading segment `S` of a recognized chain, carrying no
enclosing module identity. -/
def cxCursor : CursorContext :=
  ⟨⟨10, 11⟩, none, some ⟨.Single ⟨⟨10, 11⟩, "S"⟩, .All, false⟩, none⟩

/-- C2 counterexample: with no enclosing module identity in the cursor
descriptor, computing the struct candidate for member alias `S` reaches
the `unwrap()` of the enclosing module in `datatype_completion` and the
engine panics (modelled as `none`) instead of returning normally. -/
theorem engine_panics_without_enclosing_module :
    name_chain_completions cxSymbols cxCursor false = none := by decide

/-- C2 (amended): for every input whose cursor descriptor carries an
enclosing module identity, `name_chain_completions` and
`use_decl_completions` return normally. -/
theorem engine_total_with_enclosing_module (symbols : Symbols) (cursor : CursorContext)
    (ccol : Bool) (m : ModuleIdent_) (hm : cursor.module = some m) :
    (name_chain_completions symbols cursor ccol).isSome ∧
    (use_decl_completions symbols cursor).isSome :=
  ⟨name_chain_completions_isSome m hm symbols ccol, use_decl_completions_isSome m hm symbols⟩

/-- The panic input of C2 with the enclosing module restored. -/
def cxCursorWithModule : CursorContext :=
  ⟨⟨10, 11⟩, some cxMod, some ⟨.Single ⟨⟨10, 11⟩, "S"⟩, .All, false⟩, none⟩

/-- Witness for the amended C2: on the counterexample input, restoring the
enclosing module identity makes both entry points return normally. -/
theorem engine_total_with_enclosing_module_witness :
    (name_chain_completions cxSymbols cxCursorWithModule false).isSome ∧
    (use_decl_completions cxSymbols cxCursorWithModule).isSome :=
  engine_total_with_enclosing_module cxSymbols cxCursorWithModule false cxMod rfl

/-- C6: kinds only narrow along a chain: after a Package the next kind, if
any, is a Module; after a Module it is always the Member named by the
component; after a Member no further kind is produced (in particular a
Member is never followed by a Module). -/
theorem chain_kind_monotonic_narrowing (symbols : Symbols)
    (info : AliasAutocompleteInfo) (comp : Name) :
    (∀ ln, next_name_chain_component_kind symbols info (.Package ln) comp = none ∨
      ∃ mi, next_name_chain_component_kind symbols info (.Package ln) comp =
        some (.Module mi)) ∧
    (∀ mi, next_name_chain_component_kind symbols info (.Module mi) comp =
      some (.Member mi comp.value)) ∧
    (∀ mi mn, next_name_chain_component_kind symbols info (.Member mi mn) comp =
      none) := by
  refine ⟨?_, fun mi => rfl, fun mi mn => rfl⟩
  intro ln
  unfold next_name_chain_component_kind
  cases hf : (pkg_mod_identifiers symbols info ln).find?
      (fun mi => decide (mi.module = comp.value)) with
  | none => left; simp [hf]
  | some mi => right; exact ⟨mi, by simp [hf]⟩

/-- C7: when the walk's index equals the path length, candidates (those
`name_chain_entry_completions` emits for the kind after the previous
component) are produced exactly when the separator trigger was observed
and the cursor starts strictly after the previous component's end;
otherwise the walk stops, contributing no candidates. -/
theorem chain_walk_terminal_colon_colon (fuel : Nat) (symbols : Symbols)
    (cursor : CursorContext) (info : AliasAutocompleteInfo) (prev_loc : Loc)
    (prev_kind : ChainComponentKind) (ck : ChainCompletionKind)
    (path_entries : List Name) (ccol iu : Bool) :
    completions_for_name_chain_entry (fuel + 1) symbols cursor info
        ⟨prev_loc, prev_kind⟩ ck path_entries path_entries.length ccol iu =
      if ccol && decide (prev_loc.endPos < cursor.loc.startPos) then
        name_chain_entry_completions symbols cursor info prev_kind ck iu
      else some [] := by
  unfold completions_for_name_chain_entry
  rw [if_pos rfl]

/-- C8: a leading segment in GlobalQualifiedName form resolves to Package
exactly when its name names a known package, and to nothing otherwise —
never to a Module or a Member, whatever the alias scope's module-alias or
member-alias maps contain for the same text. -/
theorem global_qualified_resolves_only_to_package (symbols : Symbols)
    (info : AliasAutocompleteInfo) (n : Name) (loc : Loc) :
    first_name_chain_component_kind symbols info ⟨loc, .GlobalAddress n⟩ =
      (if is_package_name symbols info n then
        some (.Package ⟨loc, .GlobalAddress n⟩)
      else none) := rfl

/-- C9: the recursive chain walk terminates within recursion depth
`path length + 1 - index`: giving the walk any fuel at least that bound
computes the same result as the bound itself, so the recursion never
exhausts and its depth is bounded by the path length plus one. -/
theorem chain_walk_fuel_bound (symbols : Symbols) (cursor : CursorContext)
    (info : AliasAutocompleteInfo) (ck : ChainCompletionKind)
    (path_entries : List Name) (ccol iu : Bool) :
    ∀ (fuel path_index : Nat) (pinfo : ChainComponentInfo),
      path_entries.length + 1 - path_index ≤ fuel →
      completions_for_name_chain_entry fuel symbols cursor info pinfo ck
          path_entries path_index ccol iu =
        completions_for_name_chain_entry (path_entries.length + 1 - path_index)
          symbols cursor info pinfo ck path_entries path_index ccol iu := by
  intro fuel
  induction fuel with
  | zero =>
    intro idx pinfo hle
    have h0 : path_entries.length + 1 - idx = 0 := by omega
    rw [h0]
  | succ fuel ih =>
    intro idx pinfo hle
    by_cases hidx : idx ≤ path_entries.length
    case neg =>
      have h0 : path_entries.length + 1 - idx = 0 := by omega
      rw [h0]
      unfold completions_for_name_chain_entry
      rw [if_neg (by omega), List.getElem?_eq_none (by omega)]
    case pos =>
      by_cases heq : idx = path_entries.length
      · subst heq
        have h1 : path_entries.length + 1 - path_entries.length = 0 + 1 := by omega
        rw [h1]
        unfold completions_for_name_chain_entry
        rw [if_pos rfl, if_pos rfl]
      · have hlt : idx < path_entries.length := by omega
        have h1 : path_entries.length + 1 - idx =
            (path_entries.length + 1 - (idx + 1)) + 1 := by omega
        rw [h1]
        unfold completions_for_name_chain_entry
        rw [if_neg heq, if_neg heq]
        cases hget : path_entries[idx]? with
        | none => rfl
        | some entry =>
          by_cases hcc : (ccol && decide (pinfo.loc.endPos < cursor.loc.startPos)
                && decide (cursor.loc.endPos ≤ entry.loc.startPos)
              || entry.loc.contains cursor.loc) = true
          · simp only [hcc, reduceIte]
          · simp only [Bool.not_eq_true] at hcc
            simp only [hcc, Bool.false_eq_true, reduceIte]
            cases hnk : next_name_chain_component_kind symbols info pinfo.kind entry with
            | none => rfl
            | some nk => exact ih (idx + 1) _ (by omega)

/-- Witness for C9: on a concrete empty path, fuel 7 and the exact bound
compute the same result. -/
theorem chain_walk_fuel_bound_witness :
    completions_for_name_chain_entry 7 cxSymbols cxCursorWithModule cxInfo
        ⟨⟨0, 1⟩, .Module cxMod⟩ .All [] 0 true false =
      completions_for_name_chain_entry (([] : List Name).length + 1 - 0) cxSymbols
        cxCursorWithModule cxInfo ⟨⟨0, 1⟩, .Module cxMod⟩ .All [] 0 true false :=
  chain_walk_fuel_bound cxSymbols cxCursorWithModule cxInfo .All [] true false 7 0
    ⟨⟨0, 1⟩, .Module cxMod⟩ (by decide)

/-! Auxiliary facts for the snippet claims. -/

theorem map_key_eq_iff (a b : ModuleIdent_) :
    expansion_mod_ident_to_map_key a = expansion_mod_ident_to_map_key b ↔
      modIdentEqb a b = true := by
  simp [expansion_mod_ident_to_map_key, modIdentEqb, addrEqb, Prod.ext_iff,
    Bool.and_eq_true, decide_eq_true_iff]

theorem enum_snd_mem {l : List α} {p : Nat × α} (hp : p ∈ l.enum) : p.2 ∈ l :=
  List.get?_mem (List.mem_enum_iff_get?.mp hp)

theorem placeholders_count (named : Bool) (fields : List Name)
    (hf : ∀ f ∈ fields, ('$' : Char) ∉ f.value.data) (sep : String)
    (hsep : ('$' : Char) ∉ sep.data) :
    countChar '$'
        (joinSep sep (fields.enum.map (fun p => fieldPlaceholder named p.1 p.2))) =
      fields.length := by
  rw [joinSep_countChar '$' sep hsep]
  · simp
  · intro s hs
    rcases List.mem_map.mp hs with ⟨p, hp, rfl⟩
    exact fieldPlaceholder_count_dollar named p.1 p.2 (hf _ (enum_snd_mem hp))

theorem placeholders_no_newline (named : Bool) (fields : List Name)
    (hf : ∀ f ∈ fields, ('\n' : Char) ∉ f.value.data) (sep : String)
    (hsep : ('\n' : Char) ∉ sep.data) :
    ('\n' : Char) ∉
      (joinSep sep (fields.enum.map (fun p => fieldPlaceholder named p.1 p.2))).data := by
  apply joinSep_not_mem '\n' sep hsep
  intro s hs
  rcases List.mem_map.mp hs with ⟨p, hp, rfl⟩
  exact fieldPlaceholder_no_newline named p.1 p.2 (hf _ (enum_snd_mem hp))

theorem fieldPlaceholder_pos_no_newline (idx : Nat) (name : Name) :
    ('\n' : Char) ∉ (fieldPlaceholder false idx name).data := by
  intro hmem
  simp [fieldPlaceholder, mem_data_append, newline_not_mem_repr (idx + 1)] at hmem

theorem placeholders_pos_no_newline (fields : List Name) (sep : String)
    (hsep : ('\n' : Char) ∉ sep.data) :
    ('\n' : Char) ∉
      (joinSep sep (fields.enum.map (fun p => fieldPlaceholder false p.1 p.2))).data := by
  apply joinSep_not_mem '\n' sep hsep
  intro s hs
  rcases List.mem_map.mp hs with ⟨p, hp, rfl⟩
  exact fieldPlaceholder_pos_no_newline p.1 p.2

theorem fieldPlaceholder_pos_count_dollar (idx : Nat) (name : Name) :
    countChar '$' (fieldPlaceholder false idx name) = 1 := by
  simp [fieldPlaceholder, countChar_append,
    countChar_eq_zero (dollar_not_mem_repr (idx + 1))]
  rfl

theorem placeholders_pos_count (fields : List Name) (sep : String)
    (hsep : ('$' : Char) ∉ sep.data) :
    countChar '$'
        (joinSep sep (fields.enum.map (fun p => fieldPlaceholder false p.1 p.2))) =
      fields.length := by
  rw [joinSep_countChar '$' sep hsep]
  · simp
  · intro s hs
    rcases List.mem_map.mp hs with ⟨p, hp, rfl⟩
    exact fieldPlaceholder_pos_count_dollar p.1 p.2

theorem multiline_shape (container : String) (ps : List String) (hne : ps ≠ []) :
    container ++ " \x7b\n\t" ++ joinSep ",\n\t" ps ++ ",\n\x7d" =
      container ++ " \x7b" ++ concatAll (ps.map (fun p => "\n\t" ++ p ++ ",")) ++
        "\n\x7d" := by
  rw [← joinSep_multiline ps hne]
  apply String.ext
  simp [String.data_append]

/-- C3: a struct's (or variant's) construction snippet is gated on the
defining module being the cursor's enclosing module.  Enumerating from a
different requester module yields only the bare-name candidate; from the
same module with a non-empty field list it yields the bare-name candidate
plus exactly one snippet whose placeholder count (occurrences of the
snippet marker character) equals the declared field count. -/
theorem snippet_cross_module_gate (cursor : CursorContext) (R M : ModuleIdent_)
    (container : String) (kind : CompletionItemKind) (fields : List Name)
    (named : Bool) (hm : cursor.module = some R) :
    (modIdentEqb M R = false →
      datatype_completion cursor M container kind fields named =
        some [completion_item container kind]) ∧
    (modIdentEqb M R = true → fields ≠ [] →
      ('$' : Char) ∉ container.data →
      (∀ f ∈ fields, ('$' : Char) ∉ f.value.data) →
      ∃ lab t, datatype_completion cursor M container kind fields named =
          some [completion_item container kind,
            { label := lab, kind := kind, insert_text := some t,
              snippet_format := true }] ∧
        countChar '$' t = fields.length) := by
  constructor
  · intro hMR
    have hkey : decide (expansion_mod_ident_to_map_key M ≠
        expansion_mod_ident_to_map_key R) = true := by
      apply decide_eq_true
      intro hEq
      rw [(map_key_eq_iff M R).mp hEq] at hMR
      exact absurd hMR (by decide)
    unfold datatype_completion
    rw [hm]
    simp only [hkey, Bool.or_true, reduceIte]
  · intro hMR hne hc hf
    have hkey : decide (expansion_mod_ident_to_map_key M ≠
        expansion_mod_ident_to_map_key R) = false := by
      apply decide_eq_false
      intro hNe
      exact hNe ((map_key_eq_iff M R).mpr hMR)
    have hemp : fields.isEmpty = false := by
      cases fields with
      | nil => exact absurd rfl hne
      | cons a b => rfl
    unfold datatype_completion
    rw [hm]
    simp only [hkey, hemp, Bool.or_false, Bool.false_eq_true, reduceIte]
    refine ⟨_, _, rfl, ?_⟩
    cases named with
    | false =>
      simp only [Bool.not_false, Bool.and_false, Bool.false_eq_true, reduceIte]
      rw [countChar_append, countChar_append, countChar_append]
      rw [countChar_eq_zero hc, placeholders_count false fields hf ", " (by decide)]
      rw [show countChar '$' "(" = 0 from rfl, show countChar '$' ")" = 0 from rfl]
      omega
    | true =>
      by_cases hlen : 2 < fields.length
      · have hd : decide (fields.length > 2) = true := decide_eq_true hlen
        simp only [hd, Bool.not_true, Bool.and_true, Bool.false_eq_true, reduceIte]
        rw [countChar_append, countChar_append, countChar_append]
        rw [countChar_eq_zero hc,
          placeholders_count true fields hf ",\n\t" (by decide)]
        rw [show countChar '$' " \x7b\n\t" = 0 from rfl,
          show countChar '$' ",\n\x7d" = 0 from rfl]
        omega
      · have hd : decide (fields.length > 2) = false := decide_eq_false hlen
        simp only [hd, Bool.not_true, Bool.and_true, Bool.false_eq_true, reduceIte]
        rw [countChar_append, countChar_append, countChar_append]
        rw [countChar_eq_zero hc,
          placeholders_count true fields hf ", " (by decide)]
        rw [show countChar '$' " \x7b " = 0 from rfl,
          show countChar '$' " \x7d" = 0 from rfl]
        omega

/-- Requester module distinct from `cxMod` used by the C3 witness. -/
def w3other : ModuleIdent_ := ⟨.NamedUnassigned "Q", "n"⟩

/-- Witness for C3: a struct of module `Q::n` enumerated from requester
module `P::m` yields only the bare-name candidate. -/
theorem snippet_cross_module_gate_witness :
    datatype_completion cxCursorWithModule w3other "S" .STRUCT
        [⟨⟨0, 1⟩, "a"⟩] true =
      some [completion_item "S" .STRUCT] :=
  (snippet_cross_module_gate cxCursorWithModule cxMod w3other "S" .STRUCT
    [⟨⟨0, 1⟩, "a"⟩] true rfl).1 (by decide)

/-- C5: snippet layout follows the field-count thresholds: an empty field
list yields the bare-name candidate only; a positional container's
template is single-line (no newline characters) with exactly one
placeholder per declared field, whatever the field count; a named
container with at most two fields gets a single-line inline template,
again with one placeholder per field; a named container with more than
two fields gets a template whose every field placeholder sits on its own
indented, comma-terminated line, with the closing brace on its own
line. -/
theorem snippet_layout_thresholds (cursor : CursorContext) (R M : ModuleIdent_)
    (container : String) (kind : CompletionItemKind) (fields : List Name)
    (named : Bool) (hm : cursor.module = some R) :
    (fields = [] →
      datatype_completion cursor M container kind fields named =
        some [completion_item container kind]) ∧
    (expansion_mod_ident_to_map_key M = expansion_mod_ident_to_map_key R →
      fields ≠ [] →
      (named = false →
        ∃ t, datatype_completion cursor M container kind fields named =
            some [completion_item container kind,
              { label := container ++ "(..)", kind := kind, insert_text := some t,
                snippet_format := true }] ∧
          (('\n' : Char) ∉ container.data → ('\n' : Char) ∉ t.data) ∧
          (('$' : Char) ∉ container.data → countChar '$' t = fields.length)) ∧
      (named = true → fields.length ≤ 2 →
        ∃ t, datatype_completion cursor M container kind fields named =
            some [completion_item container kind,
              { label := container ++ "\x7b..\x7d", kind := kind,
                insert_text := some t, snippet_format := true }] ∧
          (('\n' : Char) ∉ container.data →
            (∀ f ∈ fields, ('\n' : Char) ∉ f.value.data) →
            ('\n' : Char) ∉ t.data) ∧
          (('$' : Char) ∉ container.data →
            (∀ f ∈ fields, ('$' : Char) ∉ f.value.data) →
            countChar '$' t = fields.length)) ∧
      (named = true → 2 < fields.length →
        datatype_completion cursor M container kind fields named =
          some [completion_item container kind,
            { label := container ++ "\x7b..\x7d", kind := kind,
              insert_text := some (container ++ " \x7b" ++
                concatAll ((fields.enum.map
                    (fun p => fieldPlaceholder true p.1 p.2)).map
                  (fun p => "\n\t" ++ p ++ ",")) ++ "\n\x7d"),
              snippet_format := true }])) := by
  constructor
  · intro h0
    subst h0
    unfold datatype_completion
    rw [hm]
    simp only [List.isEmpty_nil, Bool.true_or, reduceIte]
  · intro hkeyEq hne
    have hkey : decide (expansion_mod_ident_to_map_key M ≠
        expansion_mod_ident_to_map_key R) = false :=
      decide_eq_false (fun hNe => hNe hkeyEq)
    have hemp : fields.isEmpty = false := by
      cases fields with
      | nil => exact absurd rfl hne
      | cons a b => rfl
    refine ⟨?_, ?_, ?_⟩
    · intro hnamed
      subst hnamed
      unfold datatype_completion
      rw [hm]
      simp only [hkey, hemp, Bool.or_false, Bool.false_eq_true, reduceIte,
        Bool.not_false, Bool.and_false]
      refine ⟨_, rfl, ?_, ?_⟩
      · intro hc hmem
        rcases mem_data_append.mp hmem with hmem1 | hmem2
        · rcases mem_data_append.mp hmem1 with hmem3 | hmem4
          · rcases mem_data_append.mp hmem3 with hmem5 | hmem6
            · exact hc hmem5
            · exact absurd hmem6 (by decide)
          · exact placeholders_pos_no_newline fields ", " (by decide) hmem4
        · exact absurd hmem2 (by decide)
      · intro hc
        rw [countChar_append, countChar_append, countChar_append]
        rw [countChar_eq_zero hc, placeholders_pos_count fields ", " (by decide)]
        rw [show countChar '$' "(" = 0 from rfl, show countChar '$' ")" = 0 from rfl]
        omega
    · intro hnamed hle
      subst hnamed
      have hd : decide (fields.length > 2) = false :=
        decide_eq_false (by omega)
      unfold datatype_completion
      rw [hm]
      simp only [hkey, hemp, Bool.or_false, Bool.false_eq_true, reduceIte,
        Bool.not_true, hd, Bool.and_true]
      refine ⟨_, rfl, ?_, ?_⟩
      · intro hc hf hmem
        rcases mem_data_append.mp hmem with hmem1 | hmem2
        · rcases mem_data_append.mp hmem1 with hmem3 | hmem4
          · rcases mem_data_append.mp hmem3 with hmem5 | hmem6
            · exact hc hmem5
            · exact absurd hmem6 (by decide)
          · exact placeholders_no_newline true fields
              (fun f hfm => hf f hfm) ", " (by decide) hmem4
        · exact absurd hmem2 (by decide)
      · intro hc hf
        rw [countChar_append, countChar_append, countChar_append]
        rw [countChar_eq_zero hc,
          placeholders_count true fields hf ", " (by decide)]
        rw [show countChar '$' " \x7b " = 0 from rfl,
          show countChar '$' " \x7d" = 0 from rfl]
        omega
    · intro hnamed hlen
      subst hnamed
      have hd : decide (fields.length > 2) = true := decide_eq_true hlen
      have hps : fields.enum.map (fun p => fieldPlaceholder true p.1 p.2) ≠ [] := by
        cases fields with
        | nil => exact absurd rfl hne
        | cons a b => simp [List.enum_cons]
      unfold datatype_completion
      rw [hm]
      simp only [hkey, hemp, Bool.or_false, Bool.false_eq_true, reduceIte,
        Bool.not_true, hd, Bool.and_true]
      rw [multiline_shape container _ hps]
      rfl

/-- Witness for C5: a named struct with three fields gets the multi-line
template with each placeholder on its own indented comma-terminated
line. -/
theorem snippet_layout_thresholds_witness :
    datatype_completion cxCursorWithModule cxMod "S" .STRUCT
        [⟨⟨0, 1⟩, "a"⟩, ⟨⟨2, 3⟩, "b"⟩, ⟨⟨4, 5⟩, "c"⟩] true =
      some [completion_item "S" .STRUCT,
        { label := "S" ++ "\x7b..\x7d", kind := .STRUCT,
          insert_text := some ("S" ++ " \x7b" ++
            concatAll ((([⟨⟨0, 1⟩, "a"⟩, ⟨⟨2, 3⟩, "b"⟩,
                  ⟨⟨4, 5⟩, "c"⟩] : List Name).enum.map
                (fun p => fieldPlaceholder true p.1 p.2)).map
              (fun p => "\n\t" ++ p ++ ",")) ++ "\n\x7d"),
          snippet_format := true }] :=
  ((snippet_layout_thresholds cxCursorWithModule cxMod cxMod "S" .STRUCT
      [⟨⟨0, 1⟩, "a"⟩, ⟨⟨2, 3⟩, "b"⟩, ⟨⟨4, 5⟩, "c"⟩] true rfl).2 rfl
    (by decide)).2.2 rfl (by decide)

/-! Membership characterization for function candidates in module member
enumeration. -/

theorem optFlatMap_mem {f : α → Option (List β)} :
    ∀ {l : List α} {out : List β}, optFlatMap f l = some out →
      ∀ b ∈ out, ∃ x ∈ l, ∃ ys, f x = some ys ∧ b ∈ ys := by
  intro l
  induction l with
  | nil =>
    intro out h b hb
    unfold optFlatMap at h
    injection h with h1
    subst h1
    cases hb
  | cons x xs ih =>
    intro out h b hb
    unfold optFlatMap at h
    split at h
    · cases h
    · rename_i y hy
      split at h
      · cases h
      · rename_i ys hys
        injection h with h1
        subst h1
        rcases List.mem_append.mp hb with hb1 | hb2
        · exact ⟨x, by simp, y, hy, hb1⟩
        · rcases ih hys b hb2 with ⟨x2, hx2, ys2, hys2, hb3⟩
          exact ⟨x2, List.mem_cons_of_mem _ hx2, ys2, hys2, hb3⟩

theorem datatype_completion_kinds {cursor : CursorContext} {dmi : ModuleIdent_}
    {fc : String} {kind : CompletionItemKind} {fns : List Name} {nf : Bool}
    {out : List CompletionItem}
    (h : datatype_completion cursor dmi fc kind fns nf = some out) :
    ∀ i ∈ out, i.kind = kind := by
  unfold datatype_completion at h
  split at h
  · cases h
  · simp only [] at h
    repeat' split at h
    all_goals injection h with h1
    all_goals subst h1
    all_goals intro i hi
    all_goals simp only [List.mem_append, List.mem_singleton] at hi
    all_goals rcases hi with rfl | rfl <;> rfl

theorem struct_completion_kinds {cursor : CursorContext} {dmi : ModuleIdent_}
    {name : String} {md : MemberDef} {out : List CompletionItem}
    (h : struct_completion cursor dmi name md = some out) :
    ∀ i ∈ out, i.kind = .STRUCT := by
  unfold struct_completion at h
  split at h
  · exact datatype_completion_kinds h
  · injection h with h1
    subst h1
    intro i hi
    simp only [List.mem_singleton] at hi
    subst hi
    rfl

theorem nodup_key_unique {β : Type} {l : List (String × β)}
    (hnd : (l.map Prod.fst).Nodup) {a : String} {b1 b2 : β}
    (h1 : (a, b1) ∈ l) (h2 : (a, b2) ∈ l) : b1 = b2 := by
  induction l with
  | nil => cases h1
  | cons x xs ih =>
    simp only [List.map_cons, List.nodup_cons] at hnd
    rcases List.mem_cons.mp h1 with h1e | h1'
    · subst h1e
      rcases List.mem_cons.mp h2 with h2e | h2'
      · exact (congrArg Prod.snd h2e).symm
      · exact absurd (List.mem_map.mpr ⟨(a, b2), h2', rfl⟩) hnd.1
    · rcases List.mem_cons.mp h2 with h2e | h2'
      · subst h2e
        exact absurd (List.mem_map.mpr ⟨(a, b1), h1', rfl⟩) hnd.1
      · exact ih hnd.2 h1' h2'

/-- The visibility filter of `module_member_completions`, named for
reuse in membership reasoning. -/
def fun_visibility_filter (same_module same_package : Bool) (p : String × FunctionInfo) :
    Bool :=
  match p.2.visibility with
  | .Internal => same_module
  | .Package => same_package
  | .Public => true

theorem mmc_function_mem_iff (symbols : Symbols) (cursor : CursorContext)
    (mi : ModuleIdent_) (ck : ChainCompletionKind) (iu : Bool) (mdefs : ModuleDefs)
    (fname : String) (finfo : FunctionInfo) (out : List CompletionItem)
    (hmd : mod_defs symbols mi = some mdefs)
    (hnd : (mdefs.functions.map Prod.fst).Nodup)
    (hmem : (fname, finfo) ∈ mdefs.functions)
    (hout : module_member_completions symbols cursor mi ck iu = some out) :
    call_completion_item mi finfo.macroFlag fname iu ∈ out ↔
      ((ck = .Function ∨ ck = .All) ∧
        fun_visibility_filter (sameModuleAsCursor cursor mi)
          (samePackageAsCursor cursor mi) (fname, finfo) = true) := by
  unfold module_member_completions at hout
  simp only [hmd] at hout
  split at hout
  · cases hout
  · rename_i type_completions htc
    injection hout with h1
    subst h1
    constructor
    · intro hitem
      rcases List.mem_append.mp hitem with hleft | hconsts
      rcases List.mem_append.mp hleft with hfuns | htypes
      · by_cases hck : ck = ChainCompletionKind.Function ∨ ck = ChainCompletionKind.All
        · refine ⟨hck, ?_⟩
          rw [if_pos hck] at hfuns
          rcases List.mem_map.mp hfuns with ⟨p, hpf, hpe⟩
          rcases List.mem_filter.mp hpf with ⟨hpmem, hppred⟩
          have hlab : p.1 = fname := congrArg CompletionItem.label hpe
          have hp2 : p.2 = finfo := by
            apply nodup_key_unique hnd _ hmem
            rw [← hlab]
            exact hpmem
          unfold fun_visibility_filter
          rw [← hp2]
          exact hppred
        · rw [if_neg hck] at hfuns
          cases hfuns
      · exfalso
        have hkindne : (call_completion_item mi finfo.macroFlag fname iu).kind =
            CompletionItemKind.FUNCTION := rfl
        split at htc
        · rcases Option.map_eq_some'.mp htc with ⟨scs, hscs, hteq⟩
          subst hteq
          rcases List.mem_append.mp htypes with hstructs | henums
          · rcases optFlatMap_mem hscs _ hstructs with ⟨x, hx, ys, hys, hiys⟩
            have := struct_completion_kinds hys _ hiys
            rw [hkindne] at this
            cases this
          · rcases List.mem_map.mp henums with ⟨e, he, heq⟩
            have := congrArg CompletionItem.kind heq
            rw [hkindne] at this
            cases this
        · injection htc with h2
          subst h2
          cases htypes
      · exfalso
        have hkindne : (call_completion_item mi finfo.macroFlag fname iu).kind =
            CompletionItemKind.FUNCTION := rfl
        split at hconsts
        · rcases List.mem_map.mp hconsts with ⟨c, hc, heq⟩
          have := congrArg CompletionItem.kind heq
          rw [hkindne] at this
          cases this
        · cases hconsts
    · intro hcond
      rcases hcond with ⟨hck, hpred⟩
      apply List.mem_append.mpr
      left
      apply List.mem_append.mpr
      left
      rw [if_pos hck]
      apply List.mem_map.mpr
      refine ⟨(fname, finfo), ?_, rfl⟩
      apply List.mem_filter.mpr
      exact ⟨hmem, hpred⟩

/-- C4: a function of a resolved module is enumerated exactly when the
purpose admits functions (Function or Any) and its visibility admits the
requester: ModulePrivate only from the same module, PackageVisible only
from a requester whose module address equals the owning module's address,
Public always. -/
theorem module_member_function_visibility (symbols : Symbols)
    (cursor : CursorContext) (mi : ModuleIdent_) (ck : ChainCompletionKind)
    (iu : Bool) (mdefs : ModuleDefs) (fname : String) (finfo : FunctionInfo)
    (out : List CompletionItem) (hmd : mod_defs symbols mi = some mdefs)
    (hnd : (mdefs.functions.map Prod.fst).Nodup)
    (hmem : (fname, finfo) ∈ mdefs.functions)
    (hout : module_member_completions symbols cursor mi ck iu = some out) :
    call_completion_item mi finfo.macroFlag fname iu ∈ out ↔
      ((ck = .Function ∨ ck = .All) ∧
        (finfo.visibility = .Internal → sameModuleAsCursor cursor mi = true) ∧
        (finfo.visibility = .Package → samePackageAsCursor cursor mi = true)) := by
  rw [mmc_function_mem_iff symbols cursor mi ck iu mdefs fname finfo out hmd hnd
    hmem hout]
  unfold fun_visibility_filter
  cases hv : finfo.visibility <;> simp [hv]

/-- Module-private function living in `cxMod`, used by witnesses. -/
def w4fn : FunctionInfo := ⟨.Internal, false⟩

/-- Definition tables of `cxMod` holding one module-private function. -/
def w4mdefs : ModuleDefs := ⟨cxMod, [("f", w4fn)], [], [], []⟩

/-- Symbol index holding only `w4mdefs`. -/
def w4symbols : Symbols := ⟨[w4mdefs], []⟩

/-- Witness for C4: a ModulePrivate function is enumerated for a
same-module requester, the filter condition holding as the iff states. -/
theorem module_member_function_visibility_witness :
    call_completion_item cxMod false "f" false ∈
        [call_completion_item cxMod false "f" false] ↔
      ((ChainCompletionKind.All = ChainCompletionKind.Function ∨
          ChainCompletionKind.All = ChainCompletionKind.All) ∧
        (w4fn.visibility = .Internal →
          sameModuleAsCursor cxCursorWithModule cxMod = true) ∧
        (w4fn.visibility = .Package →
          samePackageAsCursor cxCursorWithModule cxMod = true)) :=
  module_member_function_visibility w4symbols cxCursorWithModule cxMod .All false
    w4mdefs "f" w4fn [call_completion_item cxMod false "f" false]
    (by decide) (by decide) (by decide) (by decide)

/-- C10: the single-name member-alias path applies no visibility filter
and no same-module restriction: a function found under the alias's target
name yields its call candidate whatever its visibility and whatever the
cursor's enclosing module, and a constant likewise yields a candidate with
no same-module check — unlike `module_member_completions`, which drops a
ModulePrivate function for a requester outside the owning module. -/
theorem single_name_member_no_visibility_gate (symbols : Symbols)
    (cursor : CursorContext) (mi : ModuleIdent_) (malias mname : String)
    (mdefs : ModuleDefs) (hmd : mod_defs symbols mi = some mdefs) :
    (∀ finfo ck,
      mdefs.functions.find? (fun p => decide (p.1 = mname)) = some (mname, finfo) →
      (ck = ChainCompletionKind.Function ∨ ck = ChainCompletionKind.All) →
      single_name_member_completion symbols cursor mi malias mname ck =
        some [call_completion_item mi finfo.macroFlag malias false]) ∧
    (mdefs.functions.find? (fun p => decide (p.1 = mname)) = none →
      mdefs.structs.find? (fun p => decide (p.1 = mname)) = none →
      mdefs.enums.find? (fun p => decide (p.1 = mname)) = none →
      mdefs.constants.any (fun c => decide (c = mname)) = true →
      single_name_member_completion symbols cursor mi malias mname .All =
        some [completion_item malias .CONSTANT]) ∧
    (∀ finfo out iu,
      (mname, finfo) ∈ mdefs.functions →
      (mdefs.functions.map Prod.fst).Nodup →
      finfo.visibility = .Internal →
      sameModuleAsCursor cursor mi = false →
      module_member_completions symbols cursor mi .All iu = some out →
      call_completion_item mi finfo.macroFlag mname iu ∉ out) := by
  refine ⟨?_, ?_, ?_⟩
  · intro finfo ck hfind hck
    unfold single_name_member_completion
    simp only [hmd, hfind]
    rw [if_pos hck]
  · intro hf1 hf2 hf3 hany
    unfold single_name_member_completion
    simp only [hmd, hf1, hf2, hf3, hany, reduceIte]
  · intro finfo out iu hmem hnd hvis hsm hout hin
    have hiff := (mmc_function_mem_iff symbols cursor mi .All iu mdefs mname finfo
      out hmd hnd hmem hout).mp hin
    rcases hiff with ⟨hck, hpred⟩
    unfold fun_visibility_filter at hpred
    rw [hvis] at hpred
    simp only [] at hpred
    rw [hsm] at hpred
    exact absurd hpred (by decide)

/-- Target module distinct from the witness requester's module. -/
def w10mod : ModuleIdent_ := ⟨.NamedUnassigned "Q", "n"⟩

/-- Definition tables of `Q::n`: a ModulePrivate function `g` and a
constant `C`. -/
def w10mdefs : ModuleDefs := ⟨w10mod, [("g", ⟨.Internal, false⟩)], [], [], ["C"]⟩

/-- Symbol index holding only `w10mdefs`. -/
def w10symbols : Symbols := ⟨[w10mdefs], []⟩

/-- Witness for C10: from requester module `P::m`, the alias path still
offers the ModulePrivate function `g` of `Q::n`. -/
theorem single_name_member_no_visibility_gate_witness :
    single_name_member_completion w10symbols cxCursorWithModule w10mod "g" "g"
        ChainCompletionKind.All =
      some [call_completion_item w10mod false "g" false] :=
  (single_name_member_no_visibility_gate w10symbols cxCursorWithModule w10mod "g" "g"
    w10mdefs (by decide)).1 ⟨.Internal, false⟩ .All (by decide) (by decide)
